import Mathlib

/-!
Verification of ascii-movie: playback engine and per-connection handlers

A shallow embedding of

* `internal/player/player.go`: `Player.Update` (the `frameTickMsg` case),
  `Player.pause`, `Player.Close`, `NewSimplePlayer`, `SimplePlayer.Play`;
* `internal/server/telnet.go`: `TelnetServer.Handler`;
* `internal/server/ssh.go`: the playback goroutine of `SSHServer.Handler`
  and `SSHServer.TrackStream`.

Conventions.

* A `time.Duration` is a signed 64-bit count of nanoseconds.  It is an `Int`
  here, and the one place where the code adds two of them (`duration += ...`)
  goes through `wrap64`.
* `Player.speed` / `SimplePlayer.speed` is a `float64` in the source.  The
  code only compares it with zero, negates it and hands it to
  `Frame.CalcDuration`, so it is a rational number here.
* `Frame.CalcDuration` belongs to package `movie`, whose source is not
  embedded.  Every definition that calls it takes it as the parameter
  `calcDur`; `CalcDuration` below is its model from the specification.
* `Frames[i]` panics in Go when `i` is out of range; the embedding returns
  `none` there.
-/

namespace AsciiMovie

/-! ## Data model -/

/-- A frame of package `movie`: the fields the player reads. -/
structure Frame where
  Data : String
  Duration : Int
  Progress : String
deriving DecidableEq, Repr

/-- A movie of package `movie`: the fields the player reads. -/
structure Movie where
  Frames : List Frame
  Width : Int
deriving DecidableEq, Repr

/-- The constant `time.Second`, in nanoseconds. -/
def Second : Int := 1000000000

/-- The expression `time.Second/15` of `Player.Update`: Go divides the two
integer constants, which gives 66666666 ns. -/
def minFrameTime : Int := Second / 15

/-- Two's-complement reduction of an integer to the range of an `int64`. -/
def wrap64 (x : Int) : Int := (x + 2 ^ 63) % 2 ^ 64 - 2 ^ 63

/-- Modelled from the spec: `Frame.CalcDuration` of package `movie`, whose
source is missing.  The specification gives it as the frame's nominal duration
divided by the speed.  A duration is a whole number of nanoseconds, so the
quotient `Duration / (num/den)` is computed as `Duration * den / num` and
truncated toward zero.  (A zero speed gives 0 here; the theorems that do not
depend on the value returned are stated for an arbitrary `calcDur`.) -/
def CalcDuration (f : Frame) (speed : ℚ) : Int :=
  Int.tdiv (f.Duration * (speed.den : Int)) speed.num

/-- Indexing `p.movie.Frames[i]` with a Go `int`: `none` is the run-time
panic on an index out of range. -/
def frameAt (m : Movie) (i : Int) : Option Frame :=
  if 0 ≤ i then m.Frames.get? i.toNat else none

/-! ## The interactive player -/

/-- The fields of `Player` that `Update`, `pause` and `Close` read or write.
`playing` is `p.playCtx.Err() == nil`: the play context has not been
cancelled. -/
structure Player where
  movie : Movie
  frame : Int
  speed : ℚ
  playing : Bool
deriving DecidableEq

/-- The `tea.Cmd` values `Update` returns on a `frameTickMsg`: `nil`,
`tea.Quit`, or `tick(p.playCtx, duration, frameTickMsg{})`. -/
inductive Cmd where
  | nil
  | quit
  | tick (duration : Int)
deriving DecidableEq, Repr

/-- `Player.clearTimeouts`: calls `p.playCancel()`, which cancels the play
context. -/
def Player.clearTimeouts (p : Player) : Player := { p with playing := false }

/-- `Player.pause`. -/
def Player.pause (p : Player) : Player := p.clearTimeouts

/-- The loop `for duration < time.Second/15 { ... }` of `Player.Update`
(lines 97-107).  `speed` is the local, non-negative copy of `p.speed`.
The loop has no bound of its own in the source; `fuel` counts the iterations
still allowed and the outer `none` is the model running out of it.  The inner
`none` is an index panic. -/
def collapseLoop (calcDur : Frame → ℚ → Int) (frameDiff : Int) (speed : ℚ) :
    Nat → Player → Int → Option (Option (Player × Cmd))
  | 0, p, duration =>
    if duration < minFrameTime then none else some (some (p, Cmd.tick duration))
  | fuel + 1, p, duration =>
    if duration < minFrameTime then
      if p.frame + frameDiff ≥ (p.movie.Frames.length : Int) then
        some (some (p, Cmd.quit))
      else if p.frame + frameDiff ≤ 0 then
        some (some (({ p with speed := 1 } : Player).pause, Cmd.nil))
      else
        let p1 : Player := { p with frame := p.frame + frameDiff }
        match frameAt p1.movie p1.frame with
        | none => some none
        | some f => collapseLoop calcDur frameDiff speed fuel p1 (wrap64 (duration + calcDur f speed))
    else some (some (p, Cmd.tick duration))

/-- Lines 91-108 of `Player.Update`: the step onto the next frame, the local
absolute value of the speed (`speed *= -1`, written as a negation), the first
duration and the collapse loop. -/
def advance (calcDur : Frame → ℚ → Int) (fuel : Nat) (p : Player) (frameDiff : Int) :
    Option (Option (Player × Cmd)) :=
  let p1 : Player := { p with frame := p.frame + frameDiff }
  let speed : ℚ := if p1.speed < 0 then -p1.speed else p1.speed
  match frameAt p1.movie p1.frame with
  | none => some none
  | some f => collapseLoop calcDur frameDiff speed fuel p1 (calcDur f speed)

/-- `Player.Update` on a `frameTickMsg` (lines 76-108), with the collapse
loop allowed `fuel` iterations. -/
def UpdateFuel (calcDur : Frame → ℚ → Int) (fuel : Nat) (p : Player) :
    Option (Option (Player × Cmd)) :=
  if p.speed ≥ 0 then
    if p.frame + 1 ≥ (p.movie.Frames.length : Int) then
      some (some (p, Cmd.quit))
    else advance calcDur fuel p 1
  else if p.frame ≤ 0 then
    some (some (({ p with speed := 1 } : Player).pause, Cmd.nil))
  else advance calcDur fuel p (-1)

/-- `Player.Update` on a `frameTickMsg`.  Every iteration of the collapse
loop that does not return moves the cursor one frame toward an end of the
frame list, so `len(Frames)` iterations are enough (`UpdateFuel_stable`
below); the result is `none` on an index panic. -/
def Update (calcDur : Frame → ℚ → Int) (p : Player) : Option (Player × Cmd) :=
  (UpdateFuel calcDur p.movie.Frames.length p).join

/-- The branch of `Player.Close` (lines 160-164): the message it logs at
info level. -/
def Player.Close (p : Player) : String :=
  if p.frame ≥ (p.movie.Frames.length : Int) - 1 then "Finished movie" else "Disconnected early"

/-- The Bubble Tea loop around `Update`: a `tick` command delivers the next
`frameTickMsg` once its duration has elapsed, and `Update` handles it, until
`Update` returns a command that is not a tick (`tea.Quit`, or `nil` when
paused).  The result is the list of durations of the ticks scheduled, in
order, the final player and the final command; `none` is an index panic or
the driver running out of `fuel` calls. -/
def runTicks (calcDur : Frame → ℚ → Int) : Nat → Player → Option (List Int × Player × Cmd)
  | 0, _ => none
  | fuel + 1, p =>
    match Update calcDur p with
    | none => none
    | some (q, Cmd.tick d) => (runTicks calcDur fuel q).map (fun r => (d :: r.1, r.2))
    | some (q, Cmd.quit) => some ([], q, Cmd.quit)
    | some (q, Cmd.nil) => some ([], q, Cmd.nil)

/-- The sum of `CalcDuration(speed)` over the first `k` frames. -/
def elapsed (calcDur : Frame → ℚ → Int) (speed : ℚ) (frames : List Frame) (k : Nat) : Int :=
  ((frames.take k).map (fun f => calcDur f speed)).sum

/-! ## The streaming player -/

/-- The errors the embedding tells apart: `context.Canceled`,
`context.DeadlineExceeded`, and any other error (a failed write, a refused
registration), identified by its text. -/
inductive Err where
  | canceled
  | deadlineExceeded
  | other (msg : String)
deriving DecidableEq, Repr

/-- The fields of `SimplePlayer` that `Play` reads or writes.  (`output` is
part of `PlayState`.) -/
structure SimplePlayer where
  movie : Movie
  frame : Int
  speed : ℚ
deriving DecidableEq

/-- `NewSimplePlayer`: cursor at the zero value, speed 1. -/
def NewSimplePlayer (m : Movie) : SimplePlayer :=
  { movie := m, frame := 0, speed := 1 }

/-- The world around one call of `Play`.
* `ctxDone k`: the `k`-th `select` executed (counted from 0) takes its
  `<-ctx.Done()` case.
* `ctxErr`: the value of `ctx.Err()` once the context is done.
* `writeErr k`: the error returned by the `k`-th `fmt.Fprint` on the output
  (counted from 0), `none` when the write succeeds. -/
structure Env where
  ctxDone : Nat → Bool
  ctxErr : Err
  writeErr : Nat → Option Err

/-- What `Play` does that can be observed: a completed write to the output,
and a wait `<-time.After(duration)` that ran to its end. -/
inductive Event where
  | write (data : String)
  | wait (duration : Int)
deriving DecidableEq, Repr

/-- The state threaded through `Play`: the player, the number of `select`s
and of writes executed so far, and what has happened, oldest first. -/
structure PlayState where
  p : SimplePlayer
  selects : Nat
  writes : Nat
  log : List Event

/-- The control sequence of line 178: clear the screen, move the cursor. -/
def clearSeq : String := "\x1b[2J\x1b[999;1H"

/-- The loop of `SimplePlayer.Play` (lines 170-195) and the `return nil` that
follows it.  `fuel` bounds the number of iterations; the outer `none` is the
model running out of it, the inner `none` an index panic.  Otherwise the
result is the final state and the error returned (`none` for `nil`). -/
def playLoop (calcDur : Frame → ℚ → Int) (env : Env) :
    Nat → PlayState → Option (Option (PlayState × Option Err))
  | 0, st =>
    if st.p.frame < (st.p.movie.Frames.length : Int) then none else some (some (st, none))
  | fuel + 1, st =>
    if st.p.frame < (st.p.movie.Frames.length : Int) then
      if env.ctxDone st.selects then
        some (some ({ st with selects := st.selects + 1 }, some env.ctxErr))
      else
        match frameAt st.p.movie st.p.frame with
        | none => some none
        | some frame =>
          match env.writeErr st.writes with
          | some err =>
            some (some ({ st with selects := st.selects + 1, writes := st.writes + 1 }, some err))
          | none =>
            match env.writeErr (st.writes + 1) with
            | some err =>
              some (some ({ st with selects := st.selects + 1, writes := st.writes + 2,
                                    log := st.log ++ [Event.write clearSeq] }, some err))
            | none =>
              let duration := calcDur frame st.p.speed
              if env.ctxDone (st.selects + 1) then
                some (some ({ st with selects := st.selects + 2, writes := st.writes + 2,
                                      log := st.log ++ [Event.write clearSeq,
                                        Event.write frame.Data] }, some env.ctxErr))
              else
                playLoop calcDur env fuel
                  { p := { st.p with frame := st.p.frame + 1 }
                    selects := st.selects + 2
                    writes := st.writes + 2
                    log := st.log ++ [Event.write clearSeq, Event.write frame.Data,
                      Event.wait duration] }
    else some (some (st, none))

/-- `SimplePlayer.Play`, started with nothing written yet.  Each iteration
that does not return moves the cursor one frame forward, so `len(Frames)`
iterations are enough. -/
def Play (calcDur : Frame → ℚ → Int) (env : Env) (p : SimplePlayer) :
    Option (PlayState × Option Err) :=
  (playLoop calcDur env p.movie.Frames.length
    { p := p, selects := 0, writes := 0, log := [] }).join

/-- What one iteration of `Play` that runs to its end leaves in the log for
frame `f`: the clear sequence, the frame's data, the wait. -/
def frameEvents (calcDur : Frame → ℚ → Int) (speed : ℚ) (f : Frame) : List Event :=
  [Event.write clearSeq, Event.write f.Data, Event.wait (calcDur f speed)]

/-- The durations of the completed waits of a log, in order. -/
def waits : List Event → List Int
  | [] => []
  | Event.wait d :: es => d :: waits es
  | Event.write _ :: es => waits es

/-- An environment in which the context is never cancelled and no write
fails. -/
def quietEnv : Env :=
  { ctxDone := fun _ => false, ctxErr := Err.canceled, writeErr := fun _ => none }

/-- An environment in which the context is never done and write number `w`,
and no other, fails with "broken pipe". -/
def brokenPipeAt (w : Nat) : Env :=
  { quietEnv with writeErr := fun k => if k = w then some (Err.other "broken pipe") else none }

/-- The `select`s of a run in which writes take no time, frame `j` is waited
for `durs[j]` and the context is cancelled `t` ns after the start.  The
`select` at the top of iteration `j` (number `2j`) runs at time
`durs[0] + ... + durs[j-1]` and finds the context done when `t` is not later
than that; the `select` of the wait of iteration `j` (number `2j+1`) takes the
`ctx.Done()` case when `t` falls before the end of the wait. -/
def cancelledAt (durs : List Int) (t : Int) (k : Nat) : Bool :=
  if k % 2 = 0 then decide (t ≤ (durs.take (k / 2)).sum)
  else decide (t < (durs.take (k / 2 + 1)).sum)

/-! ## The per-connection handlers -/

/-- What a handler does that can be observed, in order. -/
inductive SrvEvent where
  | logError (msg : String)
  | write (data : String)
  | play (result : Option Err)
  | handler
  | streamDisconnect (id : Nat)
  | cancel
  | close
deriving DecidableEq, Repr

/-- `errors.Is(err, context.Canceled)`. -/
def isCanceled (err : Err) : Bool :=
  match err with
  | Err.canceled => true
  | _ => false

/-- `TelnetServer.Handler` (telnet.go, lines 84-107).  `streamConnect` is
what `s.Info.StreamConnect` returns, `playResult` what `p.Play(ctx)` returns
if it is called; `ErrorText` is a function of package `server` whose source is
missing.  `SrvEvent.play r` stands for the call of `p.Play`, which is where the
frames are written.  The deferred calls run last, in reverse order of their
`defer`. -/
def TelnetServer.Handler (ErrorText : Err → String) (streamConnect : Except Err Nat)
    (playResult : Option Err) : List SrvEvent :=
  match streamConnect with
  | Except.error err =>
    [SrvEvent.logError "Failed to begin stream", SrvEvent.write (ErrorText err ++ "\n"),
      SrvEvent.close]
  | Except.ok id =>
    [SrvEvent.play playResult] ++
      (match playResult with
        | some err =>
          if !isCanceled err then [SrvEvent.logError "Movie playback failed"] else []
        | none => []) ++
      [SrvEvent.cancel, SrvEvent.streamDisconnect id, SrvEvent.close]

/-- The playback goroutine of `SSHServer.Handler` (ssh.go, lines 121-126):
`p.Play(session.Context())`, the log call, `session.Close()`. -/
def SSHServer.Handler (playResult : Option Err) : List SrvEvent :=
  [SrvEvent.play playResult] ++
    (match playResult with
      | some _ => [SrvEvent.logError "Movie playback failed"]
      | none => []) ++
    [SrvEvent.close]

/-- `SSHServer.TrackStream` (ssh.go, lines 137-152) applied to a session.
`SrvEvent.handler` stands for the call `handler(session)` of the wrapped
handler. -/
def SSHServer.TrackStream (ErrorText : Err → String) (streamConnect : Except Err Nat) :
    List SrvEvent :=
  match streamConnect with
  | Except.error err =>
    [SrvEvent.logError "Failed to begin stream", SrvEvent.write (ErrorText err ++ "\n")]
  | Except.ok id => [SrvEvent.handler, SrvEvent.streamDisconnect id]

/-- The writes of a trace, in order. -/
def srvWrites : List SrvEvent → List String
  | [] => []
  | SrvEvent.write d :: es => d :: srvWrites es
  | _ :: es => srvWrites es

/-- The number of times playback or the wrapped handler is invoked. -/
def srvRuns : List SrvEvent → Nat
  | [] => 0
  | SrvEvent.play _ :: es => srvRuns es + 1
  | SrvEvent.handler :: es => srvRuns es + 1
  | _ :: es => srvRuns es

/-- The ids `StreamDisconnect` is called with, in order. -/
def srvDisconnects : List SrvEvent → List Nat
  | [] => []
  | SrvEvent.streamDisconnect id :: es => id :: srvDisconnects es
  | _ :: es => srvDisconnects es

/-- The messages logged at error level, in order. -/
def srvErrorLogs : List SrvEvent → List String
  | [] => []
  | SrvEvent.logError msg :: es => msg :: srvErrorLogs es
  | _ :: es => srvErrorLogs es

/-! ## Predicates and sample inputs -/

/-- The cursor indexes a frame of the movie: `0 <= frame < len(Frames)`. -/
def InBounds (p : Player) : Prop :=
  0 ≤ p.frame ∧ p.frame < (p.movie.Frames.length : Int)

/-- What one `Update` on a `frameTickMsg` guarantees about the player it
returns and the command it schedules, relative to the player `p` it started
from. -/
def StepPost (p : Player) (r : Player × Cmd) : Prop :=
  r.1.movie = p.movie ∧ InBounds r.1 ∧
  match r.2 with
  | Cmd.tick d => minFrameTime ≤ d ∧ r.1.speed = p.speed ∧ r.1.playing = p.playing
  | Cmd.quit =>
    r.1.frame = (p.movie.Frames.length : Int) - 1 ∧ r.1.speed = p.speed ∧
      r.1.playing = p.playing
  | Cmd.nil => r.1.speed = 1 ∧ r.1.playing = false

/-- A frame with data `x` and nominal duration `d` ns. -/
def mkFrame (d : Int) : Frame := { Data := "x", Duration := d, Progress := "" }

/-- An interactive player at frame `frame` of a movie whose frames have the
nominal durations `durs`, playing at `speed`. -/
def mkPlayer (durs : List Int) (frame : Int) (speed : ℚ) : Player :=
  { movie := { Frames := durs.map mkFrame, Width := 1 }, frame := frame, speed := speed,
    playing := true }

/-- Three frames of one second each. -/
def threeSeconds : Movie :=
  { Frames := [{ Data := "a", Duration := Second, Progress := "" },
               { Data := "b", Duration := Second, Progress := "" },
               { Data := "c", Duration := Second, Progress := "" }],
    Width := 1 }

/-! ## Lemmas on the interactive player -/

theorem frameAt_isSome (m : Movie) (i : Int) (h0 : 0 ≤ i)
    (h1 : i < (m.Frames.length : Int)) : ∃ f, frameAt m i = some f := by
  have hlt : i.toNat < m.Frames.length := by omega
  refine ⟨m.Frames.get ⟨i.toNat, hlt⟩, ?_⟩
  simp [frameAt, h0, List.get?_eq_get hlt]

/-- With the cursor in bounds and enough fuel to reach the end of the frame
list in the direction of travel, the collapse loop returns, without an index
panic, a result that satisfies `StepPost`. -/
theorem collapseLoop_post (calcDur : Frame → ℚ → Int) (frameDiff : Int) (speed : ℚ) :
    ∀ (fuel : Nat) (p : Player) (d : Int), InBounds p →
      ((frameDiff = 1 ∧ (p.movie.Frames.length : Int) - p.frame ≤ fuel) ∨
        (frameDiff = -1 ∧ p.frame + 1 ≤ fuel)) →
      ∃ r, collapseLoop calcDur frameDiff speed fuel p d = some (some r) ∧ StepPost p r := by
  intro fuel
  induction fuel with
  | zero =>
    intro p d hb hf
    obtain ⟨h0, h1⟩ := hb
    rcases hf with ⟨_, hf⟩ | ⟨_, hf⟩ <;> omega
  | succ fuel ih =>
    intro p d hb hf
    obtain ⟨h0, h1⟩ := hb
    unfold collapseLoop
    by_cases hd : d < minFrameTime
    · simp only [hd, if_true]
      by_cases hq : p.frame + frameDiff ≥ (p.movie.Frames.length : Int)
      · simp only [hq, if_true]
        refine ⟨_, rfl, rfl, ⟨h0, h1⟩, ?_⟩
        have hfd : frameDiff = 1 := by
          rcases hf with ⟨h, _⟩ | ⟨h, _⟩
          · exact h
          · omega
        refine ⟨?_, rfl, rfl⟩
        show p.frame = (p.movie.Frames.length : Int) - 1
        omega
      · simp only [hq, if_false]
        by_cases hz : p.frame + frameDiff ≤ 0
        · simp only [hz, if_true]
          exact ⟨_, rfl, rfl, ⟨h0, h1⟩, rfl, rfl⟩
        · simp only [hz, if_false]
          have hb1 : InBounds ({ p with frame := p.frame + frameDiff } : Player) := by
            constructor
            · show 0 ≤ p.frame + frameDiff
              omega
            · show p.frame + frameDiff < (p.movie.Frames.length : Int)
              omega
          obtain ⟨f, hfr⟩ := frameAt_isSome p.movie (p.frame + frameDiff) hb1.1 hb1.2
          simp only [hfr]
          have hf1 : (frameDiff = 1 ∧ (p.movie.Frames.length : Int) - (p.frame + frameDiff) ≤ fuel) ∨
              (frameDiff = -1 ∧ (p.frame + frameDiff) + 1 ≤ fuel) := by
            rcases hf with ⟨h, hf⟩ | ⟨h, hf⟩
            · left; exact ⟨h, by push_cast at hf; omega⟩
            · right; exact ⟨h, by push_cast at hf; omega⟩
          obtain ⟨r, hr, hpost⟩ :=
            ih ({ p with frame := p.frame + frameDiff } : Player)
              (wrap64 (d + calcDur f speed)) hb1 hf1
          exact ⟨r, hr, hpost⟩
    · simp only [hd, if_false]
      refine ⟨_, rfl, rfl, ⟨h0, h1⟩, ?_, rfl, rfl⟩
      show minFrameTime ≤ d
      omega

/-- One more unit of fuel does not change a result the loop already gave. -/
theorem collapseLoop_fuel_succ (calcDur : Frame → ℚ → Int) (frameDiff : Int) (speed : ℚ) :
    ∀ (fuel : Nat) (p : Player) (d : Int) (r : Option (Player × Cmd)),
      collapseLoop calcDur frameDiff speed fuel p d = some r →
      collapseLoop calcDur frameDiff speed (fuel + 1) p d = some r := by
  intro fuel
  induction fuel with
  | zero =>
    intro p d r h
    unfold collapseLoop at h
    unfold collapseLoop
    by_cases hd : d < minFrameTime
    · simp [hd] at h
    · simpa [hd] using h
  | succ fuel ih =>
    intro p d r h
    unfold collapseLoop at h
    unfold collapseLoop
    by_cases hd : d < minFrameTime
    · simp only [hd, if_true] at h ⊢
      by_cases hq : p.frame + frameDiff ≥ (p.movie.Frames.length : Int)
      · simpa only [hq, if_true] using h
      · simp only [hq, if_false] at h ⊢
        by_cases hz : p.frame + frameDiff ≤ 0
        · simpa only [hz, if_true] using h
        · simp only [hz, if_false] at h ⊢
          cases hfr : frameAt p.movie (p.frame + frameDiff) with
          | none => simpa only [hfr] using h
          | some f =>
            simp only [hfr] at h ⊢
            exact ih _ _ _ h
    · simpa only [hd, if_false] using h

theorem collapseLoop_fuel_le (calcDur : Frame → ℚ → Int) (frameDiff : Int) (speed : ℚ)
    (fuel fuel1 : Nat) (hle : fuel ≤ fuel1) (p : Player) (d : Int) (r : Option (Player × Cmd))
    (h : collapseLoop calcDur frameDiff speed fuel p d = some r) :
    collapseLoop calcDur frameDiff speed fuel1 p d = some r := by
  induction fuel1, hle using Nat.le_induction with
  | base => exact h
  | succ k _ ih => exact collapseLoop_fuel_succ calcDur frameDiff speed k p d r ih

/-- With the cursor in bounds, `UpdateFuel` given `len(Frames)` units of fuel
returns without running out of fuel and without an index panic, and its
result satisfies `StepPost`. -/
theorem UpdateFuel_post (calcDur : Frame → ℚ → Int) (p : Player) (hb : InBounds p) :
    ∃ r, UpdateFuel calcDur p.movie.Frames.length p = some (some r) ∧ StepPost p r := by
  obtain ⟨h0, h1⟩ := hb
  unfold UpdateFuel
  by_cases hs : p.speed ≥ 0
  · simp only [hs, if_true]
    by_cases hq : p.frame + 1 ≥ (p.movie.Frames.length : Int)
    · simp only [hq, if_true]
      refine ⟨_, rfl, rfl, ⟨h0, h1⟩, ?_, rfl, rfl⟩
      show p.frame = (p.movie.Frames.length : Int) - 1
      omega
    · simp only [hq, if_false]
      unfold advance
      have hb1 : InBounds ({ p with frame := p.frame + 1 } : Player) := by
        constructor
        · show 0 ≤ p.frame + 1
          omega
        · show p.frame + 1 < (p.movie.Frames.length : Int)
          omega
      obtain ⟨f, hfr⟩ := frameAt_isSome p.movie (p.frame + 1) hb1.1 hb1.2
      simp only [hfr]
      obtain ⟨r, hr, hpost⟩ := collapseLoop_post calcDur 1
        (if p.speed < 0 then -p.speed else p.speed) p.movie.Frames.length
        ({ p with frame := p.frame + 1 } : Player)
        (calcDur f (if p.speed < 0 then -p.speed else p.speed)) hb1
        (Or.inl ⟨rfl, by show (p.movie.Frames.length : Int) - (p.frame + 1) ≤ _; omega⟩)
      exact ⟨r, hr, hpost⟩
  · simp only [hs, if_false]
    by_cases hz : p.frame ≤ 0
    · simp only [hz, if_true]
      exact ⟨_, rfl, rfl, ⟨h0, h1⟩, rfl, rfl⟩
    · simp only [hz, if_false]
      unfold advance
      have hb1 : InBounds ({ p with frame := p.frame + -1 } : Player) := by
        constructor
        · show 0 ≤ p.frame + -1
          omega
        · show p.frame + -1 < (p.movie.Frames.length : Int)
          omega
      obtain ⟨f, hfr⟩ := frameAt_isSome p.movie (p.frame + -1) hb1.1 hb1.2
      simp only [hfr]
      obtain ⟨r, hr, hpost⟩ := collapseLoop_post calcDur (-1)
        (if p.speed < 0 then -p.speed else p.speed) p.movie.Frames.length
        ({ p with frame := p.frame + -1 } : Player)
        (calcDur f (if p.speed < 0 then -p.speed else p.speed)) hb1
        (Or.inr ⟨rfl, by show (p.frame + -1) + 1 ≤ _; omega⟩)
      exact ⟨r, hr, hpost⟩

/-- The fuel `Update` gives the collapse loop is enough: any larger amount
gives the same result, so `Update` is the result of the unbounded loop of the
source. -/
theorem UpdateFuel_stable (calcDur : Frame → ℚ → Int) (p : Player) (hb : InBounds p)
    (fuel : Nat) (hf : p.movie.Frames.length ≤ fuel) :
    UpdateFuel calcDur fuel p = some (Update calcDur p) := by
  obtain ⟨r, hr, _⟩ := UpdateFuel_post calcDur p hb
  have hU : Update calcDur p = some r := by simp [Update, hr]
  rw [hU]
  unfold UpdateFuel at hr ⊢
  by_cases hs : p.speed ≥ 0
  · simp only [hs, if_true] at hr ⊢
    by_cases hq : p.frame + 1 ≥ (p.movie.Frames.length : Int)
    · simpa only [hq, if_true] using hr
    · simp only [hq, if_false] at hr ⊢
      unfold advance at hr ⊢
      cases hfr : frameAt p.movie (p.frame + 1) with
      | none => simpa only [hfr] using hr
      | some f =>
        simp only [hfr] at hr ⊢
        exact collapseLoop_fuel_le calcDur _ _ _ _ hf _ _ _ hr
  · simp only [hs, if_false] at hr ⊢
    by_cases hz : p.frame ≤ 0
    · simpa only [hz, if_true] using hr
    · simp only [hz, if_false] at hr ⊢
      unfold advance at hr ⊢
      cases hfr : frameAt p.movie (p.frame + -1) with
      | none => simpa only [hfr] using hr
      | some f =>
        simp only [hfr] at hr ⊢
        exact collapseLoop_fuel_le calcDur _ _ _ _ hf _ _ _ hr

/-- With the cursor in bounds, `Update` returns (no index panic) and its
result satisfies `StepPost`. -/
theorem Update_post (calcDur : Frame → ℚ → Int) (p : Player) (hb : InBounds p) :
    ∃ r, Update calcDur p = some r ∧ StepPost p r := by
  obtain ⟨r, hr, hpost⟩ := UpdateFuel_post calcDur p hb
  exact ⟨r, by simp [Update, hr], hpost⟩


/-! ## Lemmas on the cumulative wait -/

theorem minFrameTime_eq : minFrameTime = 66666666 := by decide

theorem wrap64_of_range (x : Int) (h0 : 0 ≤ x) (h1 : x < 2 ^ 63) : wrap64 x = x := by
  unfold wrap64
  norm_num at h1 ⊢
  omega

theorem frameAt_natCast (m : Movie) (n : Nat) : frameAt m (n : Int) = m.Frames.get? n := by
  simp [frameAt]

theorem elapsed_succ (calcDur : Frame → ℚ → Int) (s : ℚ) (frames : List Frame) (k : Nat)
    (f : Frame) (h : frames.get? k = some f) :
    elapsed calcDur s frames (k + 1) = elapsed calcDur s frames k + calcDur f s := by
  unfold elapsed
  rw [List.take_succ, ← List.get?_eq_getElem?, h]
  simp

/-- The collapse loop going forward, when no `CalcDuration` value is negative
or as large as `2^62` ns: started at frame `n` with `d` accumulated, it ends at
a frame `k >= n` either scheduling a tick of `d` plus the durations of frames
`n+1..k`, or quitting at the last frame with that sum below the minimum frame
time. -/
theorem collapseLoop_forward_sum (calcDur : Frame → ℚ → Int) (s : ℚ) :
    ∀ (fuel : Nat) (p : Player) (d : Int) (n : Nat),
      p.frame = (n : Int) → n < p.movie.Frames.length → p.movie.Frames.length - n ≤ fuel →
      0 ≤ d → d < 2 ^ 63 →
      (∀ f ∈ p.movie.Frames, 0 ≤ calcDur f s ∧ calcDur f s < 2 ^ 62) →
      ∃ (q : Player) (cmd : Cmd) (k : Nat),
        collapseLoop calcDur 1 s fuel p d = some (some (q, cmd)) ∧
        q.frame = (k : Int) ∧ n ≤ k ∧ k < p.movie.Frames.length ∧
        q.movie = p.movie ∧ q.speed = p.speed ∧
        ((cmd = Cmd.tick (d + elapsed calcDur s p.movie.Frames (k + 1) -
              elapsed calcDur s p.movie.Frames (n + 1))) ∨
          (cmd = Cmd.quit ∧ k + 1 = p.movie.Frames.length ∧
            d + elapsed calcDur s p.movie.Frames (k + 1) -
              elapsed calcDur s p.movie.Frames (n + 1) < minFrameTime)) := by
  intro fuel
  induction fuel with
  | zero =>
    intro p d n _ hn hf _ _ _
    omega
  | succ fuel ih =>
    intro p d n hpn hn hf hd0 hd1 hrange
    unfold collapseLoop
    by_cases hd : d < minFrameTime
    · simp only [hd, if_true]
      by_cases hq : p.frame + 1 ≥ (p.movie.Frames.length : Int)
      · simp only [hq, if_true]
        refine ⟨p, Cmd.quit, n, rfl, hpn, le_refl n, hn, rfl, rfl, Or.inr ⟨rfl, ?_, ?_⟩⟩
        · omega
        · omega
      · simp only [hq, if_false]
        have hz : ¬ (p.frame + 1 ≤ 0) := by omega
        simp only [hz, if_false]
        have hn1 : n + 1 < p.movie.Frames.length := by omega
        have hcast : p.frame + 1 = ((n + 1 : Nat) : Int) := by push_cast; omega
        have hget : p.movie.Frames.get? (n + 1) =
            some (p.movie.Frames.get ⟨n + 1, hn1⟩) := List.get?_eq_get hn1
        have hfr : frameAt p.movie (p.frame + 1) = some (p.movie.Frames.get ⟨n + 1, hn1⟩) := by
          rw [hcast, frameAt_natCast, hget]
        simp only [hfr]
        have hmem : p.movie.Frames.get ⟨n + 1, hn1⟩ ∈ p.movie.Frames := List.get_mem _ _ _
        obtain ⟨hc0, hc1⟩ := hrange _ hmem
        have hmin := minFrameTime_eq
        have hw : wrap64 (d + calcDur (p.movie.Frames.get ⟨n + 1, hn1⟩) s) =
            d + calcDur (p.movie.Frames.get ⟨n + 1, hn1⟩) s := by
          apply wrap64_of_range
          · omega
          · norm_num at hc1 ⊢
            omega
        rw [hw]
        obtain ⟨q, cmd, k, hrun, hqk, hnk, hk, hqm, hqs, hcmd⟩ :=
          ih ({ p with frame := p.frame + 1 } : Player)
            (d + calcDur (p.movie.Frames.get ⟨n + 1, hn1⟩) s) (n + 1) hcast hn1
            (by show p.movie.Frames.length - (n + 1) ≤ fuel; omega) (by omega)
            (by norm_num at hc1 ⊢; omega) hrange
        have hes := elapsed_succ calcDur s p.movie.Frames (n + 1) _ hget
        refine ⟨q, cmd, k, hrun, hqk, by omega, hk, hqm, hqs, ?_⟩
        have hcmd1 : (cmd = Cmd.tick (d + calcDur (p.movie.Frames.get ⟨n + 1, hn1⟩) s +
              elapsed calcDur s p.movie.Frames (k + 1) -
              elapsed calcDur s p.movie.Frames (n + 1 + 1))) ∨
            (cmd = Cmd.quit ∧ k + 1 = p.movie.Frames.length ∧
              d + calcDur (p.movie.Frames.get ⟨n + 1, hn1⟩) s +
                elapsed calcDur s p.movie.Frames (k + 1) -
                elapsed calcDur s p.movie.Frames (n + 1 + 1) < minFrameTime) := hcmd
        rcases hcmd1 with hc | ⟨hc, hkl, hlt⟩
        · left
          rw [hc]
          congr 1
          omega
        · right
          refine ⟨hc, hkl, ?_⟩
          omega
    · simp only [hd, if_false]
      refine ⟨p, Cmd.tick d, n, rfl, hpn, le_refl n, hn, rfl, rfl, Or.inl ?_⟩
      congr 1
      omega

/-- One `Update` going forward from frame `n`, when no `CalcDuration` value is
negative or as large as `2^62` ns: it ends at a frame `k`, either scheduling a
tick whose duration is the sum over frames `n+1..k` (and `k > n`), or quitting
at the last frame with the sum over frames `n+1..len-1` below the minimum
frame time. -/
theorem Update_forward_sum (calcDur : Frame → ℚ → Int) (p : Player) (n : Nat)
    (hpn : p.frame = (n : Int)) (hn : n < p.movie.Frames.length) (hs : 0 ≤ p.speed)
    (hrange : ∀ f ∈ p.movie.Frames, 0 ≤ calcDur f p.speed ∧ calcDur f p.speed < 2 ^ 62) :
    ∃ (q : Player) (cmd : Cmd) (k : Nat),
      Update calcDur p = some (q, cmd) ∧
      q.frame = (k : Int) ∧ n ≤ k ∧ k < p.movie.Frames.length ∧
      q.movie = p.movie ∧ q.speed = p.speed ∧
      ((cmd = Cmd.tick (elapsed calcDur p.speed p.movie.Frames (k + 1) -
            elapsed calcDur p.speed p.movie.Frames (n + 1)) ∧ n < k) ∨
        (cmd = Cmd.quit ∧ k + 1 = p.movie.Frames.length ∧
          elapsed calcDur p.speed p.movie.Frames (k + 1) -
            elapsed calcDur p.speed p.movie.Frames (n + 1) < minFrameTime)) := by
  have hmin := minFrameTime_eq
  unfold Update UpdateFuel
  have hs1 : p.speed ≥ 0 := hs
  simp only [hs1, if_true]
  by_cases hq : p.frame + 1 ≥ (p.movie.Frames.length : Int)
  · simp only [hq, if_true]
    refine ⟨p, Cmd.quit, n, rfl, hpn, le_refl n, hn, rfl, rfl, Or.inr ⟨rfl, ?_, ?_⟩⟩
    · omega
    · omega
  · simp only [hq, if_false]
    unfold advance
    have hneg : ¬ (p.speed < 0) := not_lt.mpr hs
    simp only [hneg, if_false]
    have hn1 : n + 1 < p.movie.Frames.length := by omega
    have hcast : p.frame + 1 = ((n + 1 : Nat) : Int) := by push_cast; omega
    have hget : p.movie.Frames.get? (n + 1) =
        some (p.movie.Frames.get ⟨n + 1, hn1⟩) := List.get?_eq_get hn1
    have hfr : frameAt p.movie (p.frame + 1) = some (p.movie.Frames.get ⟨n + 1, hn1⟩) := by
      rw [hcast, frameAt_natCast, hget]
    simp only [hfr]
    have hmem : p.movie.Frames.get ⟨n + 1, hn1⟩ ∈ p.movie.Frames := List.get_mem _ _ _
    obtain ⟨hc0, hc1⟩ := hrange _ hmem
    obtain ⟨q, cmd, k, hrun, hqk, hnk, hk, hqm, hqs, hcmd⟩ :=
      collapseLoop_forward_sum calcDur p.speed p.movie.Frames.length
        ({ p with frame := p.frame + 1 } : Player)
        (calcDur (p.movie.Frames.get ⟨n + 1, hn1⟩) p.speed) (n + 1) hcast hn1
        (by show p.movie.Frames.length - (n + 1) ≤ p.movie.Frames.length; omega) hc0
        (by norm_num at hc1 ⊢; omega) hrange
    have hes := elapsed_succ calcDur p.speed p.movie.Frames (n + 1) _ hget
    have hcmd1 : (cmd = Cmd.tick (calcDur (p.movie.Frames.get ⟨n + 1, hn1⟩) p.speed +
          elapsed calcDur p.speed p.movie.Frames (k + 1) -
          elapsed calcDur p.speed p.movie.Frames (n + 1 + 1))) ∨
        (cmd = Cmd.quit ∧ k + 1 = p.movie.Frames.length ∧
          calcDur (p.movie.Frames.get ⟨n + 1, hn1⟩) p.speed +
            elapsed calcDur p.speed p.movie.Frames (k + 1) -
            elapsed calcDur p.speed p.movie.Frames (n + 1 + 1) < minFrameTime) := hcmd
    refine ⟨q, cmd, k, ?_, hqk, by omega, hk, hqm, hqs, ?_⟩
    · rw [hrun]
      rfl
    · rcases hcmd1 with hc | ⟨hc, hkl, hlt⟩
      · left
        refine ⟨?_, by omega⟩
        rw [hc]
        congr 1
        omega
      · right
        refine ⟨hc, hkl, ?_⟩
        omega

/-- Forward playback from frame `n` at a fixed speed `s >= 0`, when no
`CalcDuration` value is negative or as large as `2^62` ns: the run ends with
`tea.Quit` at the last frame; the ticks scheduled add up to the durations of
frames `n+1..k`, where `k` is the frame the last tick was scheduled at, and
the frames after `k` add up to less than the minimum frame time. -/
theorem runTicks_forward_sum (calcDur : Frame → ℚ → Int) (s : ℚ) (hs : 0 ≤ s) :
    ∀ (fuel : Nat) (p : Player) (n : Nat),
      p.frame = (n : Int) → n < p.movie.Frames.length → p.movie.Frames.length - n ≤ fuel →
      p.speed = s →
      (∀ f ∈ p.movie.Frames, 0 ≤ calcDur f s ∧ calcDur f s < 2 ^ 62) →
      ∃ (ds : List Int) (q : Player) (k : Nat),
        runTicks calcDur fuel p = some (ds, q, Cmd.quit) ∧
        q.frame = (p.movie.Frames.length : Int) - 1 ∧ n ≤ k ∧ k < p.movie.Frames.length ∧
        ds.sum = elapsed calcDur s p.movie.Frames (k + 1) -
          elapsed calcDur s p.movie.Frames (n + 1) ∧
        elapsed calcDur s p.movie.Frames p.movie.Frames.length -
          elapsed calcDur s p.movie.Frames (k + 1) < minFrameTime := by
  intro fuel
  induction fuel with
  | zero =>
    intro p n _ hn hf _ _
    omega
  | succ fuel ih =>
    intro p n hpn hn hf hps hrange
    subst hps
    obtain ⟨q, cmd, k, hU, hqk, hnk, hk, hqm, hqs, hcmd⟩ :=
      Update_forward_sum calcDur p n hpn hn hs hrange
    unfold runTicks
    rcases hcmd with ⟨hc, hlt⟩ | ⟨hc, hkl, hlt⟩
    · subst hc
      simp only [hU]
      obtain ⟨ds, q1, k1, hrun, hq1, hk1, hk1l, hsum, htail⟩ :=
        ih q k hqk (by rw [hqm]; exact hk) (by rw [hqm]; omega) hqs (by rw [hqm]; exact hrange)
      rw [hqm] at hq1 hk1l hsum htail
      refine ⟨(elapsed calcDur p.speed p.movie.Frames (k + 1) -
          elapsed calcDur p.speed p.movie.Frames (n + 1)) :: ds, q1, k1, ?_, hq1, by omega,
        hk1l, ?_, htail⟩
      · rw [hrun]
        rfl
      · rw [List.sum_cons, hsum]
        omega
    · subst hc
      simp only [hU]
      refine ⟨[], q, n, rfl, ?_, le_refl n, hn, ?_, ?_⟩
      · omega
      · simp
      · rw [← hkl]
        exact hlt

/-! ## The interactive player: cursor bounds, minimum step, quit -/

/-- C1: for a player whose frame list is non-empty and whose cursor satisfies
`0 <= frame < len(Frames)`, and for every speed, `Update` on a `frameTickMsg`
returns (no index access panics) and the cursor of the player it returns
still satisfies `0 <= frame < len(Frames)`, on the same movie. -/
theorem Update_keeps_cursor_in_bounds (calcDur : Frame → ℚ → Int) (p : Player)
    (_hne : p.movie.Frames ≠ []) (h0 : 0 ≤ p.frame)
    (h1 : p.frame < (p.movie.Frames.length : Int)) :
    ∃ q cmd, Update calcDur p = some (q, cmd) ∧ q.movie = p.movie ∧
      0 ≤ q.frame ∧ q.frame < (q.movie.Frames.length : Int) := by
  obtain ⟨r, hr, hm, hb, _⟩ := Update_post calcDur p ⟨h0, h1⟩
  exact ⟨r.1, r.2, hr, hm, hb.1, hb.2⟩

/-- C1 at a player reversing from frame 2 of three frames. -/
theorem Update_keeps_cursor_in_bounds_witness :
    (mkPlayer [Second, 10000000, Second] 2 (-1)).movie.Frames ≠ [] ∧
    ∃ q cmd, Update CalcDuration (mkPlayer [Second, 10000000, Second] 2 (-1)) = some (q, cmd) ∧
      q.movie = (mkPlayer [Second, 10000000, Second] 2 (-1)).movie ∧
      0 ≤ q.frame ∧ q.frame < (q.movie.Frames.length : Int) :=
  ⟨by decide,
    Update_keeps_cursor_in_bounds CalcDuration (mkPlayer [Second, 10000000, Second] 2 (-1))
      (by decide) (by decide) (by decide)⟩

/-- C2: for a player with `0 <= frame < len(Frames)` and every speed, whenever
`Update` on a `frameTickMsg` schedules a next tick, the duration of that tick
is at least `time.Second/15`. -/
theorem Update_tick_at_least_min (calcDur : Frame → ℚ → Int) (p : Player)
    (h0 : 0 ≤ p.frame) (h1 : p.frame < (p.movie.Frames.length : Int))
    (q : Player) (d : Int) (h : Update calcDur p = some (q, Cmd.tick d)) :
    Second / 15 ≤ d := by
  obtain ⟨r, hr, _, _, hc⟩ := Update_post calcDur p ⟨h0, h1⟩
  rw [h] at hr
  cases hr
  exact hc.1

/-- C2 at speed 2 from frame 0: frames 1 to 3 (5 ms, 10 ms and 75 ms at that
speed) are collapsed into one tick of 90 ms. -/
theorem Update_tick_at_least_min_witness :
    Update CalcDuration (mkPlayer [Second, 10000000, 20000000, 150000000, Second] 0 2) =
        some (mkPlayer [Second, 10000000, 20000000, 150000000, Second] 3 2, Cmd.tick 90000000) ∧
      Second / 15 ≤ (90000000 : Int) :=
  ⟨by decide,
    Update_tick_at_least_min CalcDuration
      (mkPlayer [Second, 10000000, 20000000, 150000000, Second] 0 2) (by decide) (by decide)
      (mkPlayer [Second, 10000000, 20000000, 150000000, Second] 3 2) 90000000 (by decide)⟩

/-- C10: for a player with a non-empty frame list and `0 <= frame <
len(Frames)`, whenever `Update` on a `frameTickMsg` returns `tea.Quit`, the
cursor is at the last frame, `frame == len(Frames)-1`, the speed is unchanged,
and a `Close` of the player returned logs "Finished movie". -/
theorem Update_quit_at_last_frame (calcDur : Frame → ℚ → Int) (p : Player)
    (_hne : p.movie.Frames ≠ []) (h0 : 0 ≤ p.frame)
    (h1 : p.frame < (p.movie.Frames.length : Int))
    (q : Player) (h : Update calcDur p = some (q, Cmd.quit)) :
    q.frame = (p.movie.Frames.length : Int) - 1 ∧ q.speed = p.speed ∧
      q.Close = "Finished movie" := by
  obtain ⟨r, hr, hm, _, hc⟩ := Update_post calcDur p ⟨h0, h1⟩
  rw [h] at hr
  cases hr
  have hm1 : q.movie = p.movie := hm
  have hq : q.frame = (p.movie.Frames.length : Int) - 1 := hc.1
  refine ⟨hq, hc.2.1, ?_⟩
  unfold Player.Close
  rw [hm1, hq]
  simp

/-- C10 at a player on frame 1 of four, the last two frames being short:
`tea.Quit` comes from inside the collapse loop, at frame 3. -/
theorem Update_quit_at_last_frame_witness :
    Update CalcDuration (mkPlayer [Second, Second, 10000000, 20000000] 1 1) =
        some (mkPlayer [Second, Second, 10000000, 20000000] 3 1, Cmd.quit) ∧
      (mkPlayer [Second, Second, 10000000, 20000000] 3 1).frame =
        ((mkPlayer [Second, Second, 10000000, 20000000] 1 1).movie.Frames.length : Int) - 1 ∧
      (mkPlayer [Second, Second, 10000000, 20000000] 3 1).speed =
        (mkPlayer [Second, Second, 10000000, 20000000] 1 1).speed ∧
      (mkPlayer [Second, Second, 10000000, 20000000] 3 1).Close = "Finished movie" :=
  ⟨by decide,
    Update_quit_at_last_frame CalcDuration (mkPlayer [Second, Second, 10000000, 20000000] 1 1)
      (by decide) (by decide) (by decide)
      (mkPlayer [Second, Second, 10000000, 20000000] 3 1) (by decide)⟩

/-- C4: a player reversing at speed -1 from frame 2 of three frames, of which
frame 1 lasts 10 ms.  One `Update` steps onto frame 1, enters the collapse
loop, and there resets the speed to 1 and pauses with the cursor at frame 1,
not 0; the `Update` after that plays forward to frame 2.  Frame 0 is not
reached. -/
theorem Update_reverse_pauses_before_start :
    Update CalcDuration (mkPlayer [Second, 10000000, Second] 2 (-1)) =
        some ({ mkPlayer [Second, 10000000, Second] 1 1 with playing := false }, Cmd.nil) ∧
      Update CalcDuration { mkPlayer [Second, 10000000, Second] 1 1 with playing := false } =
        some ({ mkPlayer [Second, 10000000, Second] 2 1 with playing := false },
          Cmd.tick Second) := by
  decide

/-- C3, as amended: forward playback from frame 0 at a fixed speed `s > 0`,
with every `CalcDuration(s)` in `[0, 2^62)` ns, ends with `tea.Quit` at the
last frame, and for some `k < len(Frames)` the ticks scheduled add up to the
sum of `CalcDuration(s)` over frames `1..k`, while frames `k+1..len-1` add up
to less than `time.Second/15`: their accumulated duration is dropped when
`Update` returns `tea.Quit`. -/
theorem runTicks_cumulative_wait (calcDur : Frame → ℚ → Int) (p : Player)
    (hne : p.movie.Frames ≠ []) (hf : p.frame = 0) (hs : 0 < p.speed)
    (hrange : ∀ f ∈ p.movie.Frames, 0 ≤ calcDur f p.speed ∧ calcDur f p.speed < 2 ^ 62) :
    ∃ (ds : List Int) (q : Player) (k : Nat),
      runTicks calcDur p.movie.Frames.length p = some (ds, q, Cmd.quit) ∧
      q.frame = (p.movie.Frames.length : Int) - 1 ∧ k < p.movie.Frames.length ∧
      ds.sum = ((p.movie.Frames.tail.take k).map (fun f => calcDur f p.speed)).sum ∧
      ((p.movie.Frames.tail.drop k).map (fun f => calcDur f p.speed)).sum < Second / 15 := by
  have hlen : 0 < p.movie.Frames.length := List.length_pos.mpr hne
  obtain ⟨ds, q, k, hrun, hq, _, hk, hsum, htail⟩ :=
    runTicks_forward_sum calcDur p.speed (le_of_lt hs) p.movie.Frames.length p 0
      (by simpa using hf) hlen (by omega) rfl hrange
  refine ⟨ds, q, k, hrun, hq, hk, ?_, ?_⟩
  · rw [hsum]
    cases hfr : p.movie.Frames with
    | nil => exact absurd hfr hne
    | cons f0 tl => simp [elapsed]
  · have h2 : elapsed calcDur p.speed p.movie.Frames p.movie.Frames.length -
        elapsed calcDur p.speed p.movie.Frames (k + 1) =
        ((p.movie.Frames.tail.drop k).map (fun f => calcDur f p.speed)).sum := by
      cases hfr : p.movie.Frames with
      | nil => exact absurd hfr hne
      | cons f0 tl =>
        have hsplit : ((tl.take k ++ tl.drop k).map (fun f => calcDur f p.speed)).sum =
            (tl.map (fun f => calcDur f p.speed)).sum := by rw [List.take_append_drop]
        rw [List.map_append, List.sum_append] at hsplit
        simp only [elapsed, List.length_cons, List.take_succ_cons, List.map_cons, List.sum_cons,
          List.tail_cons, List.take_length]
        omega
    rw [← h2]
    exact htail

/-- C3, as amended, at frames of 1 s, 10 ms, 80 ms and 10 ms played at speed
1: one tick of 90 ms is scheduled at frame 2 and the last 10 ms are dropped. -/
theorem runTicks_cumulative_wait_witness :
    ∃ (ds : List Int) (q : Player) (k : Nat),
      runTicks CalcDuration
          (mkPlayer [Second, 10000000, 80000000, 10000000] 0 1).movie.Frames.length
          (mkPlayer [Second, 10000000, 80000000, 10000000] 0 1) = some (ds, q, Cmd.quit) ∧
      q.frame = ((mkPlayer [Second, 10000000, 80000000, 10000000] 0 1).movie.Frames.length : Int) - 1 ∧
      k < (mkPlayer [Second, 10000000, 80000000, 10000000] 0 1).movie.Frames.length ∧
      ds.sum = (((mkPlayer [Second, 10000000, 80000000, 10000000] 0 1).movie.Frames.tail.take k).map
        (fun f => CalcDuration f (mkPlayer [Second, 10000000, 80000000, 10000000] 0 1).speed)).sum ∧
      (((mkPlayer [Second, 10000000, 80000000, 10000000] 0 1).movie.Frames.tail.drop k).map
        (fun f => CalcDuration f (mkPlayer [Second, 10000000, 80000000, 10000000] 0 1).speed)).sum
          < Second / 15 :=
  runTicks_cumulative_wait CalcDuration (mkPlayer [Second, 10000000, 80000000, 10000000] 0 1)
    (by decide) (by decide) (by decide) (by decide)

/-- C3, as stated, fails: with frames of 1 s and 10 ms played forward at speed
1 from frame 0, the first `Update` steps onto frame 1, finds its 10 ms below
the minimum and returns `tea.Quit` from inside the collapse loop.  No tick is
scheduled, so the cumulative wait is 0, while `CalcDuration(1)` summed over
frames `1..len-1` is 10 ms. -/
theorem runTicks_drops_short_tail :
    (runTicks CalcDuration 2 (mkPlayer [Second, 10000000] 0 1)).map
        (fun r => (r.1, r.1.sum, r.2.2)) = some ([], 0, Cmd.quit) ∧
      (((mkPlayer [Second, 10000000] 0 1).movie.Frames.tail).map
        (fun f => CalcDuration f 1)).sum = 10000000 := by
  decide

/-! ## The streaming player -/

/-- As long as no `select` finds the context done and no write fails, `k`
iterations of the loop of `Play`, started at frame `j` with `2j` selects and
`2j` writes behind it, consume `k` units of fuel, move the cursor to `j + k`
and append the events of frames `j..j+k-1` to the log. -/
theorem playLoop_steps (calcDur : Frame → ℚ → Int) (env : Env) :
    ∀ (k fuel : Nat) (st : PlayState) (j : Nat),
      st.p.frame = (j : Int) → st.selects = 2 * j → st.writes = 2 * j →
      j + k ≤ st.p.movie.Frames.length →
      (∀ i, i < 2 * (j + k) → env.ctxDone i = false) →
      (∀ i, i < 2 * (j + k) → env.writeErr i = none) →
      playLoop calcDur env (fuel + k) st =
        playLoop calcDur env fuel
          { p := { st.p with frame := ((j + k : Nat) : Int) }
            selects := 2 * (j + k)
            writes := 2 * (j + k)
            log := st.log ++
              ((st.p.movie.Frames.drop j).take k).flatMap (frameEvents calcDur st.p.speed) } := by
  intro k
  induction k with
  | zero =>
    intro fuel st j hfr hsel hwr _ _ _
    obtain ⟨p, selects, writes, log⟩ := st
    obtain ⟨movie, frame, speed⟩ := p
    simp only at hfr hsel hwr
    subst hfr hsel hwr
    simp
  | succ k ih =>
    intro fuel st j hfr hsel hwr hlen hctx hw
    obtain ⟨p, selects, writes, log⟩ := st
    obtain ⟨movie, frame, speed⟩ := p
    simp only at hfr hsel hwr hlen
    subst hfr hsel hwr
    have hj : j < movie.Frames.length := by omega
    have hstep : fuel + (k + 1) = (fuel + k) + 1 := by omega
    rw [hstep]
    conv_lhs => unfold playLoop
    have hlt : ((j : Nat) : Int) < (movie.Frames.length : Int) := by exact_mod_cast hj
    have hget : movie.Frames.get? j = some (movie.Frames.get ⟨j, hj⟩) := List.get?_eq_get hj
    have hfa : frameAt movie (j : Int) = some (movie.Frames.get ⟨j, hj⟩) := by
      rw [frameAt_natCast, hget]
    simp only [hlt, if_true, hctx (2 * j) (by omega), hfa, hw (2 * j) (by omega),
      hw (2 * j + 1) (by omega), hctx (2 * j + 1) (by omega), Bool.false_eq_true, if_false]
    rw [ih fuel _ (j + 1) (by simp) (by simp only; omega) (by simp only; omega)
      (by simp only; omega)
      (fun i hi => hctx i (by omega)) (fun i hi => hw i (by omega))]
    have hdrop : List.take (k + 1) (List.drop j movie.Frames) =
        movie.Frames.get ⟨j, hj⟩ :: List.take k (List.drop (j + 1) movie.Frames) := by
      rw [List.drop_eq_getElem_cons hj, List.take_succ_cons]
      rfl
    simp only [hdrop, List.flatMap_cons, frameEvents, List.append_assoc]
    have e1 : j + 1 + k = j + (k + 1) := by omega
    rw [e1]

/-- One more unit of fuel does not change a result the loop of `Play` already
gave: the bound on the iterations is not felt once it is large enough. -/
theorem playLoop_fuel_succ (calcDur : Frame → ℚ → Int) (env : Env) :
    ∀ (fuel : Nat) (st : PlayState) (r : Option (PlayState × Option Err)),
      playLoop calcDur env fuel st = some r → playLoop calcDur env (fuel + 1) st = some r := by
  intro fuel
  induction fuel with
  | zero =>
    intro st r h
    unfold playLoop at h
    unfold playLoop
    by_cases hlt : st.p.frame < (st.p.movie.Frames.length : Int)
    · simp [hlt] at h
    · simpa [hlt] using h
  | succ fuel ih =>
    intro st r h
    unfold playLoop at h
    unfold playLoop
    by_cases hlt : st.p.frame < (st.p.movie.Frames.length : Int)
    · simp only [hlt, if_true] at h ⊢
      cases hc : env.ctxDone st.selects with
      | true => simpa only [hc, if_true] using h
      | false =>
        simp only [hc, Bool.false_eq_true, if_false] at h ⊢
        cases hfa : frameAt st.p.movie st.p.frame with
        | none => simpa only [hfa] using h
        | some f =>
          simp only [hfa] at h ⊢
          cases hw0 : env.writeErr st.writes with
          | some e => simpa only [hw0] using h
          | none =>
            simp only [hw0] at h ⊢
            cases hw1 : env.writeErr (st.writes + 1) with
            | some e => simpa only [hw1] using h
            | none =>
              simp only [hw1] at h ⊢
              cases hc1 : env.ctxDone (st.selects + 1) with
              | true => simpa only [hc1, if_true] using h
              | false =>
                simp only [hc1, Bool.false_eq_true, if_false] at h ⊢
                exact ih _ _ h
    · simpa only [hlt, if_false] using h

/-- If the first `2i` selects do not find the context done and the first `2i`
writes succeed, `Play` on a fresh player reaches the top of iteration `i` with
frames `0..i-1` written and waited for. -/
theorem Play_reach (calcDur : Frame → ℚ → Int) (env : Env) (m : Movie) (i : Nat)
    (hi : i ≤ m.Frames.length)
    (hctx : ∀ k, k < 2 * i → env.ctxDone k = false)
    (hw : ∀ k, k < 2 * i → env.writeErr k = none) :
    Play calcDur env (NewSimplePlayer m) =
      (playLoop calcDur env (m.Frames.length - i)
        { p := { movie := m, frame := (i : Int), speed := 1 }
          selects := 2 * i
          writes := 2 * i
          log := (m.Frames.take i).flatMap (frameEvents calcDur 1) }).join := by
  unfold Play NewSimplePlayer
  have hsplit : m.Frames.length = (m.Frames.length - i) + i := by omega
  have h := playLoop_steps calcDur env i (m.Frames.length - i)
    { p := { movie := m, frame := 0, speed := 1 }, selects := 0, writes := 0, log := [] } 0
    (by simp) (by simp) (by simp) (by simpa using hi)
    (fun k hk => hctx k (by omega)) (fun k hk => hw k (by omega))
  rw [← hsplit] at h
  simp only [h]
  simp

theorem waits_append (xs ys : List Event) : waits (xs ++ ys) = waits xs ++ waits ys := by
  induction xs with
  | nil => rfl
  | cons x xs ih =>
    cases x with
    | write d => simpa [waits] using ih
    | wait d => simpa [waits] using ih

theorem waits_frameEvents (calcDur : Frame → ℚ → Int) (speed : ℚ) (frames : List Frame) :
    waits (frames.flatMap (frameEvents calcDur speed)) =
      frames.map (fun f => calcDur f speed) := by
  induction frames with
  | nil => rfl
  | cons f fs ih =>
    rw [List.flatMap_cons, waits_append, ih]
    simp [frameEvents, waits]

theorem CalcDuration_one (f : Frame) : CalcDuration f 1 = f.Duration := by
  simp [CalcDuration]

/-- C5: for a movie with `n >= 1` frames, `Play` on a fresh `SimplePlayer`
(speed 1), with a context that is never done and writes that never fail,
returns `nil`; the log is, for each frame in index order, one write of the
clear sequence, one write of the frame's `Data` and one wait of the frame's
nominal duration, and nothing else.  So `2n` writes were made, `n` waits, and
the waits add up to the sum of the nominal durations. -/
theorem Play_writes_every_frame (m : Movie) (env : Env) (_hn : 1 ≤ m.Frames.length)
    (hctx : ∀ k, env.ctxDone k = false) (hw : ∀ k, env.writeErr k = none) :
    ∃ st, Play CalcDuration env (NewSimplePlayer m) = some (st, none) ∧
      st.log = m.Frames.flatMap
        (fun f => [Event.write clearSeq, Event.write f.Data, Event.wait f.Duration]) ∧
      st.p.frame = (m.Frames.length : Int) ∧ st.writes = 2 * m.Frames.length ∧
      (waits st.log).length = m.Frames.length ∧
      (waits st.log).sum = (m.Frames.map Frame.Duration).sum := by
  have h := Play_reach CalcDuration env m m.Frames.length (le_refl _)
    (fun k _ => hctx k) (fun k _ => hw k)
  rw [Nat.sub_self] at h
  have hfe : frameEvents CalcDuration 1 =
      fun f => [Event.write clearSeq, Event.write f.Data, Event.wait f.Duration] := by
    funext f
    simp [frameEvents, CalcDuration_one]
  have hwaits : waits (m.Frames.flatMap (frameEvents CalcDuration 1)) =
      m.Frames.map Frame.Duration := by
    rw [waits_frameEvents]
    congr 1
    funext f
    exact CalcDuration_one f
  refine ⟨{ p := { movie := m, frame := (m.Frames.length : Int), speed := 1 }
            selects := 2 * m.Frames.length
            writes := 2 * m.Frames.length
            log := (m.Frames.take m.Frames.length).flatMap (frameEvents CalcDuration 1) },
    ?_, ?_, rfl, rfl, ?_, ?_⟩
  · rw [h]
    simp [playLoop]
  · simp only [List.take_length, hfe]
  · simp only [List.take_length, hwaits, List.length_map]
  · simp only [List.take_length, hwaits]

/-- C5 at three frames of one second each. -/
theorem Play_writes_every_frame_witness :
    1 ≤ threeSeconds.Frames.length ∧
    ∃ st, Play CalcDuration quietEnv (NewSimplePlayer threeSeconds) = some (st, none) ∧
      st.log = threeSeconds.Frames.flatMap
        (fun f => [Event.write clearSeq, Event.write f.Data, Event.wait f.Duration]) ∧
      st.p.frame = (threeSeconds.Frames.length : Int) ∧
      st.writes = 2 * threeSeconds.Frames.length ∧
      (waits st.log).length = threeSeconds.Frames.length ∧
      (waits st.log).sum = (threeSeconds.Frames.map Frame.Duration).sum :=
  ⟨by decide,
    Play_writes_every_frame threeSeconds quietEnv (by decide) (fun _ => rfl) (fun _ => rfl)⟩

/-- C6: for a movie with `n` frames and an index `i < n`, if no write fails,
no `select` before the wait of frame `i` finds the context done, and the
`select` of the wait that follows frame `i` takes the `ctx.Done()` case, then
`Play` returns `ctx.Err()` (not `nil`) with the cursor at `i`; the log holds
frames `0..i-1` in full, then the clear sequence and the `Data` of frame `i`,
and nothing after: `i+1` frames written, `i` waits completed. -/
theorem Play_cancelled_during_wait (calcDur : Frame → ℚ → Int) (m : Movie) (env : Env)
    (i : Nat) (hi : i < m.Frames.length)
    (hw : ∀ k, env.writeErr k = none)
    (hbefore : ∀ k, k < 2 * i + 1 → env.ctxDone k = false)
    (hcancel : env.ctxDone (2 * i + 1) = true) :
    ∃ st, Play calcDur env (NewSimplePlayer m) = some (st, some env.ctxErr) ∧
      st.log = (m.Frames.take i).flatMap (frameEvents calcDur 1) ++
        [Event.write clearSeq, Event.write (m.Frames.get ⟨i, hi⟩).Data] ∧
      st.p.frame = (i : Int) ∧ st.writes = 2 * (i + 1) ∧
      (waits st.log).length = i := by
  have h := Play_reach calcDur env m i (le_of_lt hi)
    (fun k hk => hbefore k (by omega)) (fun k _ => hw k)
  obtain ⟨fuel, hfuel⟩ : ∃ fuel, m.Frames.length - i = fuel + 1 := ⟨m.Frames.length - i - 1, by omega⟩
  rw [hfuel] at h
  have hlt : ((i : Nat) : Int) < (m.Frames.length : Int) := by exact_mod_cast hi
  have hfa : frameAt m (i : Int) = some (m.Frames.get ⟨i, hi⟩) := by
    rw [frameAt_natCast, List.get?_eq_get hi]
  refine ⟨{ p := { movie := m, frame := (i : Int), speed := 1 }
            selects := 2 * i + 2
            writes := 2 * i + 2
            log := (m.Frames.take i).flatMap (frameEvents calcDur 1) ++
              [Event.write clearSeq, Event.write (m.Frames.get ⟨i, hi⟩).Data] },
    ?_, rfl, rfl, by show 2 * i + 2 = 2 * (i + 1); omega, ?_⟩
  · rw [h]
    unfold playLoop
    simp only [hlt, if_true, hbefore (2 * i) (by omega), hfa, hw (2 * i), hw (2 * i + 1),
      hcancel, Bool.false_eq_true, if_false]
    rfl
  · simp only [waits_append, waits_frameEvents, List.length_append, List.length_map,
      List.length_take, waits]
    simp
    omega

/-- C6 at three frames of one second each, the context being cancelled 1.5 s
after the start: two frames are written and `context.Canceled` is returned. -/
theorem Play_cancelled_during_wait_witness :
    ∃ st, Play CalcDuration
        { quietEnv with ctxDone := cancelledAt [Second, Second, Second] 1500000000 }
        (NewSimplePlayer threeSeconds) = some (st, some Err.canceled) ∧
      st.log = (threeSeconds.Frames.take 1).flatMap (frameEvents CalcDuration 1) ++
        [Event.write clearSeq,
          Event.write (threeSeconds.Frames.get ⟨1, by decide⟩).Data] ∧
      st.p.frame = ((1 : Nat) : Int) ∧ st.writes = 2 * (1 + 1) ∧
      (waits st.log).length = 1 :=
  Play_cancelled_during_wait CalcDuration threeSeconds
    { quietEnv with ctxDone := cancelledAt [Second, Second, Second] 1500000000 }
    1 (by decide) (fun _ => rfl) (by decide) (by decide)

/-- C7: for a movie and a frame index `i < len(Frames)`, if `Play` gets as far
as frame `i` (no `select` finds the context done and no write fails before)
and write number `w` fails with `err`, where `w` is the clear sequence of
frame `i` (`w = 2i`) or its `Data` (`w = 2i+1`), then `Play` returns `err`;
write `w` is the last write attempted, the cursor stays at `i`, no wait for
frame `i` takes place, and the log holds frames `0..i-1` in full, followed by
the clear sequence of frame `i` only when it was the `Data` write that
failed. -/
theorem Play_write_error (calcDur : Frame → ℚ → Int) (m : Movie) (env : Env)
    (i w : Nat) (err : Err) (hi : i < m.Frames.length) (hwi : w = 2 * i ∨ w = 2 * i + 1)
    (hctx : ∀ k, k < 2 * i + 1 → env.ctxDone k = false)
    (hok : ∀ k, k < w → env.writeErr k = none)
    (hfail : env.writeErr w = some err) :
    ∃ st, Play calcDur env (NewSimplePlayer m) = some (st, some err) ∧
      st.p.frame = (i : Int) ∧ st.writes = w + 1 ∧
      st.log = (m.Frames.take i).flatMap (frameEvents calcDur 1) ++
        (if w = 2 * i then [] else [Event.write clearSeq]) ∧
      (waits st.log).length = i := by
  have h := Play_reach calcDur env m i (le_of_lt hi)
    (fun k hk => hctx k (by omega)) (fun k hk => hok k (by omega))
  obtain ⟨fuel, hfuel⟩ : ∃ fuel, m.Frames.length - i = fuel + 1 := ⟨m.Frames.length - i - 1, by omega⟩
  rw [hfuel] at h
  have hlt : ((i : Nat) : Int) < (m.Frames.length : Int) := by exact_mod_cast hi
  have hfa : frameAt m (i : Int) = some (m.Frames.get ⟨i, hi⟩) := by
    rw [frameAt_natCast, List.get?_eq_get hi]
  have hlen : (List.take i m.Frames).length = i := by
    rw [List.length_take]
    omega
  rcases hwi with hw0 | hw1
  · subst hw0
    refine ⟨{ p := { movie := m, frame := (i : Int), speed := 1 }
              selects := 2 * i + 1
              writes := 2 * i + 1
              log := (m.Frames.take i).flatMap (frameEvents calcDur 1) },
      ?_, rfl, rfl, by simp, ?_⟩
    · rw [h]
      unfold playLoop
      simp only [hlt, if_true, hctx (2 * i) (by omega), hfa, hfail, Bool.false_eq_true,
        if_false]
      rfl
    · simp only [waits_frameEvents, List.length_map, hlen]
  · subst hw1
    have hne : ¬ (2 * i + 1 = 2 * i) := by omega
    refine ⟨{ p := { movie := m, frame := (i : Int), speed := 1 }
              selects := 2 * i + 1
              writes := 2 * i + 2
              log := (m.Frames.take i).flatMap (frameEvents calcDur 1) ++
                [Event.write clearSeq] },
      ?_, rfl, rfl, by simp only [hne, if_false], ?_⟩
    · rw [h]
      unfold playLoop
      simp only [hlt, if_true, hctx (2 * i) (by omega), hfa, hok (2 * i) (by omega), hfail,
        Bool.false_eq_true, if_false]
      rfl
    · simp only [waits_append, waits_frameEvents, List.length_append, List.length_map, hlen,
        waits, List.length_nil, Nat.add_zero]

/-- C7 at three frames of one second each, the `Data` write of frame 1
failing. -/
theorem Play_write_error_witness :
    ∃ st, Play CalcDuration (brokenPipeAt 3) (NewSimplePlayer threeSeconds) =
        some (st, some (Err.other "broken pipe")) ∧
      st.p.frame = ((1 : Nat) : Int) ∧ st.writes = 3 + 1 ∧
      st.log = (threeSeconds.Frames.take 1).flatMap (frameEvents CalcDuration 1) ++
        (if 3 = 2 * 1 then [] else [Event.write clearSeq]) ∧
      (waits st.log).length = 1 :=
  Play_write_error CalcDuration threeSeconds (brokenPipeAt 3) 1 3 (Err.other "broken pipe")
    (by decide) (by decide) (fun _ _ => rfl) (by decide) (by decide)

/-! ## The per-connection handlers -/

/-- C8: in `TelnetServer.Handler` and in `SSHServer.TrackStream`, when
`StreamConnect` returns an error the only write is `ErrorText(err)` followed by
a newline, neither playback nor the wrapped handler is invoked and
`StreamDisconnect` is not called; when `StreamConnect` returns `id`, playback
(the wrapped handler) is invoked exactly once and `StreamDisconnect` is called
exactly once, with `id`, after it, whatever playback returns. -/
theorem registration_brackets_session (ErrorText : Err → String) (playResult : Option Err) :
    (∀ err : Err,
      srvWrites (TelnetServer.Handler ErrorText (Except.error err) playResult) =
          [ErrorText err ++ "\n"] ∧
        srvRuns (TelnetServer.Handler ErrorText (Except.error err) playResult) = 0 ∧
        srvDisconnects (TelnetServer.Handler ErrorText (Except.error err) playResult) = []) ∧
    (∀ err : Err,
      srvWrites (SSHServer.TrackStream ErrorText (Except.error err)) = [ErrorText err ++ "\n"] ∧
        srvRuns (SSHServer.TrackStream ErrorText (Except.error err)) = 0 ∧
        srvDisconnects (SSHServer.TrackStream ErrorText (Except.error err)) = []) ∧
    (∀ id : Nat,
      srvRuns (TelnetServer.Handler ErrorText (Except.ok id) playResult) = 1 ∧
        srvDisconnects (TelnetServer.Handler ErrorText (Except.ok id) playResult) = [id] ∧
        ∃ mid rest, TelnetServer.Handler ErrorText (Except.ok id) playResult =
          SrvEvent.play playResult :: mid ++ SrvEvent.streamDisconnect id :: rest) ∧
    (∀ id : Nat,
      srvRuns (SSHServer.TrackStream ErrorText (Except.ok id)) = 1 ∧
        srvDisconnects (SSHServer.TrackStream ErrorText (Except.ok id)) = [id] ∧
        ∃ mid rest, SSHServer.TrackStream ErrorText (Except.ok id) =
          SrvEvent.handler :: mid ++ SrvEvent.streamDisconnect id :: rest) := by
  refine ⟨?_, ?_, ?_, ?_⟩
  · intro err
    simp [TelnetServer.Handler, srvWrites, srvRuns, srvDisconnects]
  · intro err
    simp [SSHServer.TrackStream, srvWrites, srvRuns, srvDisconnects]
  · intro id
    cases playResult with
    | none =>
      refine ⟨by simp [TelnetServer.Handler, srvRuns],
        by simp [TelnetServer.Handler, srvDisconnects], [SrvEvent.cancel], [SrvEvent.close], ?_⟩
      simp [TelnetServer.Handler]
    | some err =>
      cases hc : isCanceled err with
      | true =>
        refine ⟨by simp [TelnetServer.Handler, srvRuns, hc],
          by simp [TelnetServer.Handler, srvDisconnects, hc],
          [SrvEvent.cancel], [SrvEvent.close], ?_⟩
        simp [TelnetServer.Handler, hc]
      | false =>
        refine ⟨by simp [TelnetServer.Handler, srvRuns, hc],
          by simp [TelnetServer.Handler, srvDisconnects, hc],
          [SrvEvent.logError "Movie playback failed", SrvEvent.cancel], [SrvEvent.close], ?_⟩
        simp [TelnetServer.Handler, hc]
  · intro id
    refine ⟨by simp [SSHServer.TrackStream, srvRuns],
      by simp [SSHServer.TrackStream, srvDisconnects], [], [], ?_⟩
    simp [SSHServer.TrackStream]

/-- C9: when `Play` returns `context.Canceled`, the playback goroutine of
`SSHServer.Handler` logs "Movie playback failed" at error level, where
`TelnetServer.Handler` logs nothing at error level. -/
theorem SSHServer_Handler_logs_cancellation :
    srvErrorLogs (SSHServer.Handler (some Err.canceled)) = ["Movie playback failed"] ∧
      srvErrorLogs (TelnetServer.Handler (fun _ => "") (Except.ok 1) (some Err.canceled)) = [] := by
  decide

end AsciiMovie
